import Mathlib

/-!
# Levython runtime — formal verification of the spec's claims

A shallow embedding, in Lean 4, of the parts of `src/levython.cpp` that the
spec's claims are about:

* the NaN-boxed 8-byte value encoding (`val_int`, `as_int`, `val_number`,
  the `is_*` classifiers) — 64-bit words are modelled as `Nat` below `2^64`,
  `int64_t` as `Int` with explicit two's-complement wrapping;
* the fast arithmetic paths (`fast_add`, `fast_sub`, `fast_mul`);
* the bytecode compiler's integer-literal and constant-folding rules and a
  straight-line fragment of the instruction set, together with the
  tree-walking interpreter's integer semantics, for the compiler/VM vs
  interpreter equivalence claims;
* the `FastVM` state (operand stack, call frames, try-handler stack,
  iterator stack, heap) and the handlers `DO_DIV`, `DO_MOD`, `DO_TRY`,
  `DO_CATCH`, `DO_THROW`, `DO_CALL`, `DO_GET_INDEX`, `DO_SET_INDEX`;
* the `DO_ITER_INIT` nested-loop pattern recognizer's byte scan and
  closed-form accumulator update;
* the register-level semantics of the x86-64 code emitted by
  `JITCompiler::compile_recursive_int(1,1,2)` (the "fib" accelerator) and
  `JITCompiler::compile_is_prime`.

C++ behaviour that the source leaves undefined (signed `%` by zero) or that
depends on IEEE-754 float operations is made explicit: fallible or
unmodelled branches return `Option`/a dedicated result constructor rather
than silently inventing a value.
-/

namespace Levython

/-! ## Definitions -/

/-! ## Value encoding (levython.cpp lines 109–123, 1266–1294)

A tagged value is a 64-bit word; we represent it as a `Nat` (all
constructors below stay `< 2^64`).  `int64_t` quantities are `Int` with
wrapping made explicit. -/

/-- Quiet NaN base (`QNAN_BITS`). -/
def QNAN_BITS : Nat := 0x7FFC000000000000

/-- Sign bit, used as the object tag (`SIGN_BIT` / `TAG_OBJ`). -/
def SIGN_BIT : Nat := 0x8000000000000000

/-- Integer tag (`TAG_INT`). -/
def TAG_INT : Nat := 0x0001000000000000

/-- None tag (`TAG_NONE`). -/
def TAG_NONE : Nat := 0x0002000000000000

/-- True tag (`TAG_TRUE`). -/
def TAG_TRUE : Nat := 0x0003000000000000

/-- False tag (`TAG_FALSE`). -/
def TAG_FALSE : Nat := 0x0004000000000000

/-- Object pointer tag (`TAG_OBJ = SIGN_BIT`). -/
def TAG_OBJ : Nat := SIGN_BIT

/-- Canonical none value (`VAL_NONE = QNAN_BITS | TAG_NONE`). -/
def VAL_NONE : Nat := QNAN_BITS ||| TAG_NONE

/-- Canonical true value. -/
def VAL_TRUE : Nat := QNAN_BITS ||| TAG_TRUE

/-- Canonical false value. -/
def VAL_FALSE : Nat := QNAN_BITS ||| TAG_FALSE

/-- 48-bit payload mask (`INT_MASK`). -/
def INT_MASK : Nat := 0x0000FFFFFFFFFFFF

/-- 48-bit pointer mask (`PTR_MASK`). -/
def PTR_MASK : Nat := 0x0000FFFFFFFFFFFF

/-- `val_number(double d)` is a bit-for-bit `memcpy`; doubles are handled
by their 64-bit patterns here, so it is the identity on the pattern. -/
def val_number (bits : Nat) : Nat := bits

/-- `as_number(uint64_t v)` is the inverse `memcpy`: identity on the
pattern. -/
def as_number (bits : Nat) : Nat := bits

/-- `val_int(int64_t i) = QNAN_BITS | TAG_INT | (i & INT_MASK)`.
`i & INT_MASK` on an `int64_t` keeps the low 48 bits of the two's
complement representation, i.e. `i mod 2^48` as a non-negative number. -/
def val_int (i : Int) : Nat := QNAN_BITS ||| TAG_INT ||| (i % (2 ^ 48 : Nat)).toNat

/-- `val_obj(Obj* o) = QNAN_BITS | TAG_OBJ | (uint64_t)o`. -/
def val_obj (p : Nat) : Nat := QNAN_BITS ||| TAG_OBJ ||| p

/-- `is_number(v)`: any word that is not a full quiet-NaN pattern is a
double. -/
def is_number (v : Nat) : Bool := (v &&& QNAN_BITS) != QNAN_BITS

/-- `is_int(v) = (v & (QNAN_BITS | TAG_INT)) == (QNAN_BITS | TAG_INT)`. -/
def is_int (v : Nat) : Bool := (v &&& (QNAN_BITS ||| TAG_INT)) == (QNAN_BITS ||| TAG_INT)

/-- `is_obj(v) = (v & (QNAN_BITS | TAG_OBJ)) == (QNAN_BITS | TAG_OBJ)`. -/
def is_obj (v : Nat) : Bool := (v &&& (QNAN_BITS ||| TAG_OBJ)) == (QNAN_BITS ||| TAG_OBJ)

/-- `as_int(v)`: mask to 48 bits, then sign-extend bit 47.  The source's
sign extension is `i |= 0xFFFF000000000000` followed by reading the word
as `int64_t`; a word with bit 63 set read as `int64_t` is the word minus
`2^64`. -/
def as_int (v : Nat) : Int :=
  if (v &&& INT_MASK) &&& 0x0000800000000000 = 0 then ((v &&& INT_MASK : Nat) : Int)
  else (((v &&& INT_MASK) ||| 0xFFFF000000000000 : Nat) : Int) - 2 ^ 64

/-- `as_obj(v) = v & PTR_MASK` (pointer payload). -/
def as_obj (v : Nat) : Nat := v &&& PTR_MASK

/-! ## Decoding a tagged value

The VM never has a single `decode` function; every consumer
(`val_to_string`, `is_truthy`, the arithmetic handlers) classifies a word
in the same order: the three canonical singletons by exact comparison,
then `is_int`, then `is_number`, else object.  `decode` packages that
order. -/

/-- The kind (and payload) read back from a tagged word. -/
inductive Kind where
  | noneK : Kind
  | trueK : Kind
  | falseK : Kind
  | intK : Int → Kind
  | numberK : Nat → Kind
  | objK : Nat → Kind
  deriving DecidableEq, Repr

/-- Classify a word the way `val_to_string` / `is_truthy` do. -/
def decode (v : Nat) : Kind :=
  if v = VAL_NONE then .noneK
  else if v = VAL_TRUE then .trueK
  else if v = VAL_FALSE then .falseK
  else if is_int v then .intK (as_int v)
  else if is_number v then .numberK (as_number v)
  else .objK (as_obj v)

/-! ## The fast arithmetic paths (levython.cpp lines 1321–1374)

`int64_t` multiplication overflow is undefined behaviour in C++; the build
targets x86-64 where `imul` wraps in two's complement, which is what the
benchmark-oriented source relies on, so it is modelled as wrapping.
The non-integer branches of `fast_add`/`fast_sub`/`fast_mul` (string and
list concatenation, IEEE double arithmetic) are not modelled: the
functions return `none` there. -/

/-- Two's-complement wrap to a signed 64-bit value. -/
def wrap64 (z : Int) : Int := (z + 2 ^ 63) % 2 ^ 64 - 2 ^ 63

/-- Two's-complement wrap to a signed 48-bit value (what storing through
`val_int` and reading through `as_int` performs). -/
def wrap48 (z : Int) : Int := (z + 2 ^ 47) % 2 ^ 48 - 2 ^ 47

/-- `uint64_t` addition wraps mod `2^64`. -/
def u64_add (a b : Nat) : Nat := (a + b) % 2 ^ 64

/-- `uint64_t` subtraction wraps mod `2^64`. -/
def u64_sub (a b : Nat) : Nat := (a % 2 ^ 64 + (2 ^ 64 - b % 2 ^ 64)) % 2 ^ 64

/-- `fast_add`, integer fast path: `QNAN_BITS | TAG_INT | ((a + b) & INT_MASK)`
(the tag bits of the two operands add above bit 48 and are discarded by
the mask).  Other operand kinds: not modelled (`none`). -/
def fast_add (a b : Nat) : Option Nat :=
  if is_int a && is_int b then
    some (QNAN_BITS ||| TAG_INT ||| (u64_add a b &&& INT_MASK))
  else none

/-- `fast_sub`, integer fast path: `QNAN_BITS | TAG_INT | ((a - b) & INT_MASK)`. -/
def fast_sub (a b : Nat) : Option Nat :=
  if is_int a && is_int b then
    some (QNAN_BITS ||| TAG_INT ||| (u64_sub a b &&& INT_MASK))
  else none

/-- `fast_mul`: `if (is_int(a) && is_int(b)) return val_int(as_int(a) * as_int(b))`. -/
def fast_mul (a b : Nat) : Option Nat :=
  if is_int a && is_int b then
    some (val_int (wrap64 (as_int a * as_int b)))
  else none

/-! ## Compiler and interpreter: the integer straight-line fragment

For the compiler/VM ≡ interpreter claims (C1, C7) we embed the part of
both pipelines that integer expression statements exercise:

* `Compiler::compile_node` for `LITERAL` (integer `NUMBER` tokens,
  lines 4684–4692), `BINARY` with its constant folding (lines 4771–4824),
  the `say` call (lines 4987–4989), `PROGRAM` statement sequencing with
  its trailing `OP_POP` (lines 4673–4683) and the final `OP_RETURN` of
  `compile` (line 4613);
* the corresponding `FastVM` handlers over straight-line code
  (`DO_CONST`, `DO_CONST_INT`, `DO_ADD/SUB/MUL/MOD`, `DO_BUILTIN_SAY`,
  `DO_POP`, `DO_RETURN`);
* the tree-walking `Interpreter`'s integer `BINARY` arithmetic
  (lines 3982–4004), `LITERAL` (4055–4063) and `SAY` (4081–4086).

The instruction list is the structured view of the emitted byte stream
(each constructor = one opcode plus its operand bytes); for straight-line
code the byte encoding is in bijection with this list.  Branches whose
results are IEEE doubles, booleans, or heap values are outside this
fragment and yield `none`. -/

/-- The binary operator tokens relevant to folding (`TokenType` subset).
`less` stands for the comparison operators, which reach the
`default: folded = false` arm of the folding switch. -/
inductive BinTok where
  | plus | minus | times | divide | modulo | less
  deriving DecidableEq, Repr

/-- Expression trees: integer literals and binary nodes. -/
inductive Expr where
  | num : Int → Expr
  | bin : BinTok → Expr → Expr → Expr
  deriving DecidableEq, Repr

/-- Statements: `say(expr)` calls. -/
inductive Stmt where
  | say : Expr → Stmt
  deriving DecidableEq, Repr

/-- Structured instructions (opcode + operand bytes). -/
inductive Instr where
  | constInt : Nat → Instr  -- OP_CONST_INT b   (b is one byte)
  | konst : Int → Instr     -- OP_CONST idx, pool slot holding Value(int64)
  | add | sub | mul | div | mod | lt : Instr
  | say : Instr             -- OP_BUILTIN_SAY
  | pop : Instr             -- OP_POP
  | ret : Instr             -- OP_RETURN
  deriving DecidableEq, Repr

/-- The opcode a `BINARY` node's token compiles to (lines 4807–4823). -/
def instrOfOp : BinTok → Instr
  | .plus => .add
  | .minus => .sub
  | .times => .mul
  | .divide => .div
  | .modulo => .mod
  | .less => .lt

/-- Compiling an integer `NUMBER` literal (lines 4688–4691):
`OP_CONST_INT` with the value as its operand byte when it fits in
`[0, 255]`, otherwise an `OP_CONST` pool reference. -/
def compileLit (i : Int) : List Instr :=
  if 0 ≤ i ∧ i ≤ 255 then [.constInt i.toNat] else [.konst i]

/-- The folding switch (lines 4784–4797) on two `int64_t` literals:
`some` of the folded value, `none` when `folded = false` (division or
modulo by literal zero, or a non-arithmetic operator hitting `default`).
`int64_t` overflow in `+`/`-`/`*` is modelled as the two's-complement
wrap; `/` and `%` truncate toward zero as in C++. -/
def foldArith : BinTok → Int → Int → Option Int
  | .plus, l, r => some (wrap64 (l + r))
  | .minus, l, r => some (wrap64 (l - r))
  | .times, l, r => some (wrap64 (l * r))
  | .divide, l, r => if r = 0 then none else some (Int.tdiv l r)
  | .modulo, l, r => if r = 0 then none else some (Int.tmod l r)
  | .less, _, _ => none

/-- Is this node an integer literal (`LITERAL` with a `NUMBER` token and
no decimal point)? -/
def isLit : Expr → Option Int
  | .num i => some i
  | _ => none

/-- `Compiler::compile_node` on the expression fragment (lines 4684–4692
and 4771–4824): fold when both children are integer literals, the
operator folds, and the folded result fits `[0, 255]`; otherwise compile
both children and emit the operator's opcode. -/
def compileExpr : Expr → List Instr
  | .num i => compileLit i
  | .bin op l r =>
    match isLit l, isLit r with
    | some li, some ri =>
      match foldArith op li ri with
      | some res =>
        if 0 ≤ res ∧ res ≤ 255 then [.constInt res.toNat]
        else compileExpr l ++ compileExpr r ++ [instrOfOp op]
      | none => compileExpr l ++ compileExpr r ++ [instrOfOp op]
    | _, _ => compileExpr l ++ compileExpr r ++ [instrOfOp op]

/-- A `say(e)` call compiles to the argument followed by
`OP_BUILTIN_SAY` (lines 4987–4989). -/
def compileStmt : Stmt → List Instr
  | .say e => compileExpr e ++ [.say]

/-- `PROGRAM` sequencing emits `OP_POP` after each call statement
(lines 4673–4683); `compile` appends the final `OP_RETURN` (line 4613). -/
def compileProg (p : List Stmt) : List Instr :=
  (p.flatMap fun s => compileStmt s ++ [.pop]) ++ [.ret]

/-- `val_to_string` (lines 1393–1418) on the values this fragment
produces; formatting of IEEE doubles and heap objects is not modelled
(`none`). -/
def valToString (v : Nat) : Option String :=
  if v = VAL_NONE then some "none"
  else if v = VAL_TRUE then some "yes"
  else if v = VAL_FALSE then some "no"
  else if is_int v then some (toString (as_int v))
  else none

/-- The `FastVM` dispatch loop on straight-line code: stack of tagged
words, accumulated stdout lines.  `none` covers the cases the source
leaves undefined (stack underflow reads, `%` by zero) or that leave this
integer fragment (IEEE division, comparisons producing booleans). -/
def runInstrs : List Instr → List Nat → List String → Option (List String)
  | [], _, out => some out
  | .ret :: _, _, out => some out  -- DO_RETURN with frame_count hitting 0
  | .constInt b :: c, st, out => runInstrs c (val_int b :: st) out
  | .konst i :: c, st, out => runInstrs c (val_int i :: st) out
  | .add :: c, b :: a :: st, out =>
    match fast_add a b with
    | some v => runInstrs c (v :: st) out
    | none => none
  | .sub :: c, b :: a :: st, out =>
    match fast_sub a b with
    | some v => runInstrs c (v :: st) out
    | none => none
  | .mul :: c, b :: a :: st, out =>
    match fast_mul a b with
    | some v => runInstrs c (v :: st) out
    | none => none
  | .div :: _, _ :: _ :: _, _ => none  -- DO_DIV: IEEE double result, outside fragment
  | .mod :: c, b :: a :: st, out =>
    -- DO_MOD: val_int(as_int(a) % as_int(b)); `%` by zero is UB in C++
    if as_int b = 0 then none
    else runInstrs c (val_int (Int.tmod (as_int a) (as_int b)) :: st) out
  | .lt :: _, _ :: _ :: _, _ => none   -- DO_LT: boolean result, outside fragment
  | .say :: c, v :: st, out =>
    match valToString v with
    | some s => runInstrs c (VAL_NONE :: st) (out ++ [s])
    | none => none
  | .pop :: c, _ :: st, out => runInstrs c st out
  | _, _, _ => none  -- operand-stack underflow: reads below the stack base

/-- Compile a program and execute it on the VM from an empty stack. -/
def vmOutput (p : List Stmt) : Option (List String) :=
  runInstrs (compileProg p) [] []

/-- The tree-walking interpreter's integer evaluation (lines 3982–4004):
`long` (int64) arithmetic.  `none` when the interpreter would throw
(modulo by zero) or produce a non-integer `Value` (float division,
comparisons) — outside this fragment. -/
def evalI : Expr → Option Int
  | .num i => some i
  | .bin op l r => do
    let a ← evalI l
    let b ← evalI r
    match op with
    | .plus => some (wrap64 (a + b))
    | .minus => some (wrap64 (a - b))
    | .times => some (wrap64 (a * b))
    | .divide => none  -- returns Value(double): float result, outside fragment
    | .modulo => if b = 0 then none else some (Int.tmod a b)
    | .less => none    -- returns Value(bool), outside fragment

/-- The interpreter's output for a program: `SAY` prints
`Value::to_string()`, which for `INTEGER` is `std::to_string(int64)`. -/
def interpOutput (p : List Stmt) : Option (List String) :=
  p.mapM fun s => match s with
    | .say e => (evalI e).map (fun v => toString v)

/-- The mathematical (unwrapped) value of an arithmetic tree; meaningful
on trees that `wfExpr` accepts. -/
def evalM : Expr → Int
  | .num i => i
  | .bin op l r =>
    match op with
    | .plus => evalM l + evalM r
    | .minus => evalM l - evalM r
    | .times => evalM l * evalM r
    | _ => 0

/-- The three operators the in-range equivalence fragment covers. -/
def arith3 : BinTok → Bool
  | .plus | .minus | .times => true
  | _ => false

/-- Well-formed in-range trees: `+`/`-`/`*` only, and every node's
mathematical value fits the 48-bit signed range. -/
def wfExpr : Expr → Bool
  | .num i => decide (-2 ^ 47 ≤ i) && decide (i < 2 ^ 47)
  | .bin op l r =>
    arith3 op && wfExpr l && wfExpr r &&
      decide (-2 ^ 47 ≤ evalM (.bin op l r)) && decide (evalM (.bin op l r) < 2 ^ 47)

/-- A well-formed program is one of well-formed `say` statements. -/
def wfProg (p : List Stmt) : Bool :=
  p.all fun s => match s with | .say e => wfExpr e

/-- The interpreter's outputs for a well-formed program, statement by
statement. -/
def progOut (p : List Stmt) : List String :=
  p.map fun s => match s with | .say e => toString (evalM e)

/-! ## The FastVM machine state (levython.cpp lines 5330–5515)

State components of the `FastVM` class: operand stack (`stack`/`sp` — a
cell array plus a depth; cells above `sp` keep stale contents, exactly as
the C array does), call frames (`frames`/`fp`/`frame_count`, head of the
list = current frame), try-handler stack (`try_handlers`/`try_count`),
the global table, and the heap (addresses to objects).  `ip` is the
offset of the next opcode in the running chunk. -/

/-- `CallFrame` (line 5338): chunk pointer, instruction pointer, and the
stack index of the frame's slot 0. -/
structure CallFrame where
  chunk : Nat
  ip : Nat
  slotsBase : Nat
  deriving DecidableEq, Repr

/-- `TryHandler` (lines 5488–5493). -/
structure TryHandler where
  catch_ip : Nat
  saved_sp : Nat
  saved_fp : Nat
  saved_ip : Nat
  deriving DecidableEq, Repr

/-- Heap objects (the `Obj` header plus each subtype's fields).  A list's
`items` is its raw backing memory, indexed by an arbitrary (possibly
negative or past-`count`) element offset — an out-of-bounds access reads
or writes whatever that raw memory holds.  `invalid` marks addresses not
holding a live object. -/
inductive HeapObj where
  | func (chunk : Nat) (name : String) (arity : Nat)
  | list (count : Nat) (items : Int → Nat)
  | str (s : String)
  | rangeObj (start stop step : Int)
  | invalid

/-- The `FastVM` state. -/
structure VM where
  stack : Nat → Nat
  sp : Nat
  frames : List CallFrame
  ip : Nat
  handlers : List TryHandler
  heap : Nat → HeapObj
  globals : String → Nat

/-- Write one operand-stack cell. -/
def writeStack (f : Nat → Nat) (i v : Nat) : Nat → Nat :=
  fun j => if j = i then v else f j

/-- Outcomes of one dispatch step. -/
inductive StepResult where
  | ok (s : VM)                         -- normal continuation
  | halt (msg : String)                 -- error printed, `execute` returns VAL_NONE
  | fatal (msg : String)                -- fprintf + exit(1): process terminates
  | undef                               -- behaviour the C++ source leaves undefined
  | jitCall (name : String) (arg : Int) -- control handed to the named native code

/-- `DO_TRY` (lines 7321–7333): read the 2-byte catch offset, snapshot
`sp`/`fp`/`ip` and push a handler — silently skipped when the 64-entry
handler stack is full. -/
def doTRY (s : VM) (off : Nat) : VM :=
  let ip' := s.ip + 3
  if s.handlers.length < 64 then
    { s with
      ip := ip',
      handlers := ⟨ip' + off, s.sp, s.frames.length, ip'⟩ :: s.handlers }
  else { s with ip := ip' }

/-- `DO_CATCH` (lines 7335–7338): pop the handler on the
non-exceptional path (guarded against an empty stack). -/
def doCATCH (s : VM) : VM :=
  { s with ip := s.ip + 1, handlers := s.handlers.tail }

/-- `DO_THROW` (lines 7340–7352): pop the most recent handler, restore
its snapshotted stack/frame pointers and jump to its catch target; report
and stop when no handler is active. -/
def doTHROW (s : VM) : StepResult :=
  match s.handlers with
  | h :: rest =>
    .ok { s with
      sp := h.saved_sp,
      frames := s.frames.drop (s.frames.length - h.saved_fp),
      ip := h.catch_ip,
      handlers := rest }
  | [] => .halt "Unhandled exception!"

/-- The `b == 0.0` test of `DO_DIV` on a tagged word: integer-tagged
operands are converted through `(double)as_int` (exact below `2^53`), any
other word is read as the IEEE double with those bits, which equals `0.0`
exactly for `+0.0` (all zero) and `-0.0` (sign bit only); NaN patterns —
including every boxed object/none — compare unequal to zero. -/
def dbl_eq_zero (v : Nat) : Bool :=
  if is_int v then as_int v == 0 else v == 0 || v == SIGN_BIT

/-- `DO_DIV` (lines 5644–5660).  When the divisor reads as `0.0`: pop a
handler and restore it like a throw, or report and stop.  Otherwise the
result is an IEEE double; its bit-level quotient is taken as a parameter
`ddiv` (IEEE arithmetic is outside this embedding), applied to the two
operand words. -/
def doDIV (ddiv : Nat → Nat → Nat) (s : VM) : StepResult :=
  let a := s.stack (s.sp - 2)
  let b := s.stack (s.sp - 1)
  if dbl_eq_zero b then
    match s.handlers with
    | h :: rest =>
      .ok { s with
        sp := h.saved_sp,
        frames := s.frames.drop (s.frames.length - h.saved_fp),
        ip := h.catch_ip,
        handlers := rest }
    | [] => .halt "Error: Division by zero"
  else
    .ok { s with
      stack := writeStack s.stack (s.sp - 2) (ddiv a b),
      sp := s.sp - 1,
      ip := s.ip + 1 }

/-- `DO_MOD` (line 5661): `sp[-2] = val_int(as_int(sp[-2]) % as_int(sp[-1]))`
and nothing else — there is no zero check, and C++ `%` with a zero divisor
is undefined behaviour (`undef`); the handler stack is never consulted. -/
def doMOD (s : VM) : StepResult :=
  let a := s.stack (s.sp - 2)
  let b := s.stack (s.sp - 1)
  if as_int b = 0 then .undef
  else
    .ok { s with
      stack := writeStack s.stack (s.sp - 2) (val_int (Int.tmod (as_int a) (as_int b))),
      sp := s.sp - 1,
      ip := s.ip + 1 }

/-- Push a list of values (the try-block body's net stack effect before
the fault). -/
def pushN : VM → List Nat → VM
  | s, [] => s
  | s, v :: vs =>
    pushN { s with stack := writeStack s.stack s.sp v, sp := s.sp + 1 } vs

/-- One `try { …push k values… throw } catch {}` cycle: `DO_TRY`, the
body's pushes, the throw (a fault routed through the handler stack), then
the `DO_CATCH` at the catch target. -/
def tryCycle (off : Nat) (vs : List Nat) (s : VM) : VM :=
  match doTHROW (pushN (doTRY s off) vs) with
  | .ok u => doCATCH u
  | _ => s

/-- `DO_GET_INDEX` (lines 6151–6157): pop the index, peek the container;
for a list replace the top by `ObjList::get(idx) = items[idx]` — no
bounds check of any kind; non-list containers leave the stack top
untouched (also no error). -/
def doGET_INDEX (s : VM) : VM :=
  let idxv := s.stack (s.sp - 1)
  let sp' := s.sp - 1
  let obj := s.stack (sp' - 1)
  if is_obj obj then
    match s.heap (as_obj obj) with
    | .list _ items =>
      { s with
        sp := sp',
        stack := writeStack s.stack (sp' - 1) (items (as_int idxv)),
        ip := s.ip + 1 }
    | _ => { s with sp := sp', ip := s.ip + 1 }
  else { s with sp := sp', ip := s.ip + 1 }

/-- `DO_SET_INDEX` (lines 6159–6166): pop value and index; for a list
perform `ObjList::set(idx, val) = (items[idx] = val)` — again with no
bounds check. -/
def doSET_INDEX (s : VM) : VM :=
  let val := s.stack (s.sp - 1)
  let idxv := s.stack (s.sp - 2)
  let sp' := s.sp - 2
  let obj := s.stack (sp' - 1)
  if is_obj obj then
    match s.heap (as_obj obj) with
    | .list cnt items =>
      { s with
        sp := sp',
        heap := fun p => if p = as_obj obj then
            .list cnt (fun j => if j = as_int idxv then val else items j)
          else s.heap p,
        ip := s.ip + 1 }
    | _ => { s with sp := sp', ip := s.ip + 1 }
  else { s with sp := sp', ip := s.ip + 1 }

/-- `FRAMES_MAX` (line 5336). -/
def FRAMES_MAX : Nat := 65536

/-- `DO_CALL` (lines 6013–6133), the semantic content (the inline cache
only short-circuits repeated checks and changes no behaviour): read
`argc`, locate the callee under the arguments; non-object callee or null
function/chunk pointer is fatal (`exit(1)`); a callee *named* `fib` or
`is_prime` with one argument is intercepted and dispatched to native code
(`jitCall`); otherwise push a frame whose locals window starts at the
first argument (`sp - argc - 1`).  The callee's declared `arity` is never
read.  Reinterpreting a non-function heap object as `ObjFunc` reads
unrelated memory: `undef`. -/
def doCALL (s : VM) (argc : Nat) : StepResult :=
  let callee := s.stack (s.sp - 1 - argc)
  if is_obj callee then
    if as_obj callee = 0 then .fatal "Error: Invalid function object or missing chunk"
    else
      match s.heap (as_obj callee) with
      | .func chunk name _arity =>
        if chunk = 0 then .fatal "Error: Invalid function object or missing chunk"
        else if name = "fib" ∧ argc = 1 then
          .jitCall "fib" (as_int (s.stack (s.sp - 1)))
        else if name = "is_prime" ∧ argc = 1 then
          .jitCall "is_prime" (as_int (s.stack (s.sp - 1)))
        else if FRAMES_MAX - 1 ≤ s.frames.length + 1 then
          .fatal "Stack overflow!"
        else
          .ok { s with
            frames := ⟨chunk, 0, s.sp - argc - 1⟩ :: s.frames,
            ip := 0 }
      | _ => .undef
  else .fatal "Error: Attempt to call non-function"

/-! ### C4 — division by zero vs modulo by zero -/

/-- A concrete two-operand stack: `7` below, the divisor `0` on top. -/
def modStack : Nat → Nat :=
  fun i => if i = 0 then val_int 7 else if i = 1 then val_int 0 else 0

/-- A live handler snapshotting `sp = 0`, `fp = 1`, with catch target 100. -/
def modHandler : TryHandler := ⟨100, 0, 1, 50⟩

/-- The VM about to execute `7 ⊘ 0` with one active try handler. -/
def vmWithHandler : VM :=
  { stack := modStack, sp := 2, frames := [⟨1, 0, 0⟩], ip := 60,
    handlers := [modHandler], heap := fun _ => .invalid,
    globals := fun _ => VAL_NONE }

/-- The same state with no active handler. -/
def vmNoHandler : VM := { vmWithHandler with handlers := [] }

/-! ### C8 — list indexing has no bounds check -/

/-- Stack for the counterexample: a list reference below, the index `5`
on top. -/
def idxStack : Nat → Nat :=
  fun i => if i = 0 then val_obj 16 else if i = 1 then val_int 5 else 0

/-- Heap for the counterexample: at address 16 a list of `count = 1`
whose backing memory holds `10` in slot 0 and stale junk (`99`)
beyond. -/
def idxHeap : Nat → HeapObj :=
  fun p => if p = 16 then
    .list 1 (fun j => if j = 0 then val_int 10 else val_int 99)
  else .invalid

/-- The VM about to execute `OP_GET_INDEX` on `list[5]` with
`len(list) = 1`. -/
def vmIdx : VM :=
  { stack := idxStack, sp := 2, frames := [⟨1, 0, 0⟩], ip := 7,
    handlers := [], heap := idxHeap, globals := fun _ => VAL_NONE }

/-- Stack for the C9 witness: a one-parameter function called with three
arguments. -/
def callStack : Nat → Nat :=
  fun i => if i = 0 then val_obj 32 else val_int (i : Int)

/-- Heap for the C9 witness: at address 32, a function named `work` of
declared arity 1. -/
def callHeap : Nat → HeapObj :=
  fun p => if p = 32 then .func 7 "work" 1 else .invalid

/-- The VM about to execute `OP_CALL` with `argc = 3` on that callee. -/
def vmCall : VM :=
  { stack := callStack, sp := 4, frames := [⟨1, 0, 0⟩], ip := 20,
    handlers := [], heap := callHeap, globals := fun _ => VAL_NONE }

/-! ## The x86-64 JIT accelerators (C5)

`JITCompiler::compile_recursive_int(1, 1, 2)` (lines 713–794) emits a
fixed instruction sequence for `fib`; `compile_is_prime` (lines 894–983)
one for `is_prime`.  Below is the register-level semantics of exactly
those instructions, with `rdi`/`rbx`/`r14`/`rcx` as `Int` (the emitted
comparisons `jl`/`jg` are signed) and a fuel argument standing for the
machine's unbounded running time (ample fuel is supplied at every use;
exhaustion returns 0 and is never reached on the claimed input ranges).

`fib` body:
```
      r14 = 0 ; if (rdi < 2) goto base(r14 += rdi; return r14)
      rbx = rdi
loop: rdi = rbx - 1 ; rax = fib(rdi) ; rdi = rbx - 2 ; r14 += rax
      if (rbx > 3) { rbx = rdi; goto loop }
      r14 += rdi ; return r14
```
`is_prime` body:
```
      if (n < 2) return 0 ; if (!(n > 2)) return 1
      if (n & 1 == 0) return 0 ; i = 3
loop: if (i*i > n) return 1 ; if (n % i == 0) return 0 ; i += 2 ; goto loop
```
-/

/-- The Fibonacci recurrence of the spec:
`fib(0)=0, fib(1)=1, fib(n)=fib(n-1)+fib(n-2)`. -/
def fibSpec : Nat → Nat
  | 0 => 0
  | 1 => 1
  | n + 2 => fibSpec n + fibSpec (n + 1)

mutual

/-- Entry of the emitted `fib` code: `r14 = 0`; return `rdi` itself below
2, else run the partially-unrolled loop with `rbx = rdi`, `r14 = 0`. -/
def jitFib : Nat → Int → Int
  | 0, _ => 0
  | f + 1, n => if n < 2 then n else jitFibLoop f n 0

/-- The emitted loop: `r14 += fib(rbx - 1)`; while the pre-decrement
`rbx` exceeds 3, continue with `rbx - 2`; on exit add the final
`rdi = rbx - 2`. -/
def jitFibLoop : Nat → Int → Int → Int
  | 0, _, _ => 0
  | f + 1, b, r14 =>
    let r14' := r14 + jitFib f (b - 1)
    if b > 3 then jitFibLoop f (b - 2) r14' else r14' + (b - 2)

end

/-- Trial-division primality as the spec states it: `n` is prime iff
`2 ≤ n` and no integer in `[2, n-1]` divides it. -/
def isPrimeSpec (n : Nat) : Bool :=
  decide (2 ≤ n) && ((List.range (n - 2)).all fun k => n % (k + 2) ≠ 0)

/-- The emitted `is_prime` trial loop from `i = 3` in steps of 2
(`imul`/`div` on non-negative values; `div` is unsigned, which agrees
with `%` on the non-negative inputs reaching it). -/
def jitIsPrimeLoop : Nat → Int → Int → Int
  | 0, _, _ => 0
  | f + 1, n, i =>
    if i * i > n then 1
    else if n % i = 0 then 0
    else jitIsPrimeLoop f n (i + 2)

/-- Entry of the emitted `is_prime` code. -/
def jitIsPrime (fuel : Nat) (n : Int) : Int :=
  if n < 2 then 0
  else if ¬ n > 2 then 1
  else if n % 2 = 0 then 0
  else jitIsPrimeLoop fuel n 3

/-! ## The loop pattern recognizer at `DO_ITER_INIT` (C2)

Lines 6182–6245: when an inner `range` iterator is initialized inside an
outer step-1 iterator in its first iteration, the VM scans the bytes
after `ip` (up to 50, stopping at `OP_LOOP`) merely for an `OP_MUL`
followed later by an `OP_ADD`; if found — and both range sizes exceed
5 — it **assigns** the accumulator
`(n·(n−1)/2) · (m·(m−1)/2)` and skips both loops.

We embed the byte scan, the firing condition and the accumulator value it
writes, plus the reference semantics of actually running the nested loop
(each iteration performs `GET_GLOBAL acc; GET_LOCAL i; GET_LOCAL j;
OP_MUL; OP_ADD; SET_GLOBAL acc`, i.e. a `fast_add`/`fast_mul` fold over
the index pairs). -/

/-- Opcode byte values, from the `OpCode` enumeration order
(lines 1423–1434). -/
def OP_NONE_B : Nat := 2

/-- `OP_POP`. -/
def OP_POP_B : Nat := 5

/-- `OP_ADD`. -/
def OP_ADD_B : Nat := 7

/-- `OP_MUL`. -/
def OP_MUL_B : Nat := 9

/-- `OP_GET_GLOBAL`. -/
def OP_GET_GLOBAL_B : Nat := 23

/-- `OP_SET_GLOBAL`. -/
def OP_SET_GLOBAL_B : Nat := 24

/-- `OP_GET_LOCAL`. -/
def OP_GET_LOCAL_B : Nat := 26

/-- `OP_SET_LOCAL`. -/
def OP_SET_LOCAL_B : Nat := 27

/-- `OP_LOOP`. -/
def OP_LOOP_B : Nat := 30

/-- `OP_ITER_NEXT`. -/
def OP_ITER_NEXT_B : Nat := 36

/-- `FastIter` (line 5483). -/
structure FastIter where
  obj : Nat
  idx : Nat
  cur : Int
  stop : Int
  step : Int
  deriving DecidableEq, Repr

/-- The byte scan of lines 6191–6210: walk `i` upward while `i < 50` and
`bytes i ≠ OP_LOOP` (the fuel argument is `50 - i`, starting at 50);
remember whether an `OP_MUL` was seen; on the first `OP_ADD` after a
`OP_MUL`, capture what follows the `OP_ADD` (`SET_LOCAL slot`,
`SET_GLOBAL idx-low-byte`, or the uninitialized defaults `(false, 0)`)
and stop. -/
def scanMulAdd (bytes : Nat → Nat) : Nat → Nat → Bool → Option (Bool × Nat)
  | _, 0, _ => none
  | i, fuel + 1, fm =>
    if bytes i = OP_LOOP_B then none
    else
      let fm' := fm || (bytes i == OP_MUL_B)
      if bytes i == OP_ADD_B && fm' then
        some (if bytes (i + 1) == OP_SET_LOCAL_B then (true, bytes (i + 2))
              else if bytes (i + 1) == OP_SET_GLOBAL_B then (false, bytes (i + 2))
              else (false, 0))
      else scanMulAdd bytes (i + 1) fuel fm'

/-- The `DO_ITER_INIT` nested-loop recognizer (lines 6184–6245): fires
when at least two iterators are live, the freshly initialized inner range
is `0..rstop` step 1, the outer iterator is step 1 with `cur ≤ 1`, the
scan finds `OP_MUL` then `OP_ADD`, and both sizes exceed 5; the fired
effect **assigns** `(n(n−1)/2)·(m(m−1)/2)` to the captured accumulator
(returned here as the written tagged value) and skips both loops. -/
def iterInitNestedOpt (iter_count : Nat) (outer : FastIter)
    (rstart rstop rstep : Int) (bytes : Nat → Nat) : Option (Bool × Nat × Nat) :=
  if 2 ≤ iter_count ∧ rstart = 0 ∧ rstep = 1 then
    if outer.step = 1 ∧ outer.cur ≤ 1 then
      match scanMulAdd bytes 0 50 false with
      | some (is_local, add_slot) =>
        if outer.stop > 5 ∧ rstop > 5 then
          some (is_local, add_slot,
            val_int ((outer.stop * (outer.stop - 1) / 2) * (rstop * (rstop - 1) / 2)))
        else none
      | none => none
    else none
  else none

/-- One slow-path iteration of the loop body
`total ← total + i * j` on tagged values. -/
def slowBody (acc : Option Nat) (i j : Int) : Option Nat := do
  let a ← acc
  let p ← fast_mul (val_int i) (val_int j)
  fast_add a p

/-- Reference semantics of fully executing the nested loop
`for i in range(n): for j in range(m): total ← total + i*j` starting from
the tagged accumulator `acc0`. -/
def slowNested (acc0 : Nat) (n m : Nat) : Option Nat :=
  (List.range n).foldl
    (fun acc i => (List.range m).foldl
      (fun acc j => slowBody acc (i : Int) (j : Int)) acc)
    (some acc0)

/-- The tree-walking interpreter's execution of the same nested loop
`for i in range(n): for j in range(m): total ← total + i*j`: each
iteration evaluates the `BINARY` node with `Value(long)` arithmetic
(lines 3982–3987), i.e. int64 `+` and `*` (wrap modelled explicitly). -/
def interpNested (acc0 : Int) (n m : Nat) : Int :=
  (List.range n).foldl
    (fun acc i => (List.range m).foldl
      (fun acc j => wrap64 (acc + wrap64 ((i : Int) * (j : Int)))) acc)
    acc0

/-- The bytes following the inner `OP_ITER_INIT` in the compiled program
```
total <- 100
for i in range(10):
  for j in range(10):
    total <- total + i * j
```
(`OP_NONE`, the inner `OP_ITER_NEXT` with offset, `SET_LOCAL j`, `POP`,
then `GET_GLOBAL total; GET_LOCAL i; GET_LOCAL j; MUL; ADD;
SET_GLOBAL total; POP; LOOP`). -/
def nestedBytes : Nat → Nat := fun i =>
  if i = 0 then OP_NONE_B
  else if i = 1 then OP_ITER_NEXT_B
  else if i = 2 then 19
  else if i = 3 then 0
  else if i = 4 then OP_SET_LOCAL_B
  else if i = 5 then 1
  else if i = 6 then OP_POP_B
  else if i = 7 then OP_GET_GLOBAL_B
  else if i = 8 then 0
  else if i = 9 then 0
  else if i = 10 then OP_GET_LOCAL_B
  else if i = 11 then 0
  else if i = 12 then OP_GET_LOCAL_B
  else if i = 13 then 1
  else if i = 14 then OP_MUL_B
  else if i = 15 then OP_ADD_B
  else if i = 16 then OP_SET_GLOBAL_B
  else if i = 17 then 0
  else if i = 18 then 0
  else if i = 19 then OP_POP_B
  else if i = 20 then OP_LOOP_B
  else if i = 21 then 22
  else 0

/-! ## Theorems -/

/-! ### Bit-level bridge lemmas

The source mixes `|`/`&` with arithmetic; these lemmas convert the bitwise
forms into arithmetic ones (the tag lives entirely above bit 47, payloads
entirely below). -/

/-- A high part that is a multiple of `2^n` ors with a low part `< 2^n`
like addition. -/
theorem lor_high_low (n H m : Nat) (hm : m < 2 ^ n) :
    (2 ^ n * H) ||| m = 2 ^ n * H + m := by
  apply Nat.eq_of_testBit_eq
  intro i
  rw [Nat.testBit_lor]
  rcases lt_or_le i n with hi | hi
  · -- low bits: the high part contributes nothing
    have hpow : (0:Nat) < 2 ^ i := Nat.pos_pow_of_pos i (by norm_num)
    have hsplit : 2 ^ n * H = 2 ^ i * (2 ^ (n - i) * H) := by
      rw [← Nat.mul_assoc, ← pow_add]
      congr 2
      omega
    have heven : ∃ k, 2 ^ (n - i) * H = 2 * k := by
      refine ⟨2 ^ (n - i - 1) * H, ?_⟩
      rw [← Nat.mul_assoc, ← pow_succ']
      congr 2
      omega
    obtain ⟨k, hk⟩ := heven
    have h1 : Nat.testBit (2 ^ n * H) i = false := by
      rw [Nat.testBit_to_div_mod, hsplit]
      simp only [Nat.mul_div_cancel_left _ hpow, hk]
      simp [Nat.mul_mod_right]
    have h2 : Nat.testBit (2 ^ n * H + m) i = Nat.testBit m i := by
      rw [Nat.testBit_to_div_mod, Nat.testBit_to_div_mod, hsplit,
        Nat.mul_add_div hpow, hk]
      rw [Nat.add_comm (2 * k) (m / 2 ^ i), Nat.add_mul_mod_self_left]
    rw [h1, h2, Bool.false_or]
  · -- high bits: the low part contributes nothing
    have hmlt : m < 2 ^ i := lt_of_lt_of_le hm (Nat.pow_le_pow_right (by norm_num) hi)
    have h1 : Nat.testBit m i = false := Nat.testBit_lt_two_pow hmlt
    have h2 : Nat.testBit (2 ^ n * H + m) i = Nat.testBit (2 ^ n * H) i := by
      rw [Nat.testBit_to_div_mod, Nat.testBit_to_div_mod]
      have hdd : ∀ a : Nat, a / 2 ^ i = a / 2 ^ n / 2 ^ (i - n) := by
        intro a
        rw [Nat.div_div_eq_div_mul, ← pow_add]
        congr 2
        omega
      rw [hdd, hdd]
      have : (2 ^ n * H + m) / 2 ^ n = 2 ^ n * H / 2 ^ n := by
        have hpn : (0:Nat) < 2 ^ n := Nat.pos_pow_of_pos n (by norm_num)
        rw [Nat.mul_add_div hpn, Nat.div_eq_of_lt hm, Nat.add_zero,
          Nat.mul_div_cancel_left _ hpn]
      rw [this]
    rw [h1, h2, Bool.or_false]

/-- Absorption: `(a ||| m) &&& a = a`. -/
theorem lor_land_self (a m : Nat) : (a ||| m) &&& a = a := by
  apply Nat.eq_of_testBit_eq
  intro i
  rw [Nat.testBit_land, Nat.testBit_lor]
  cases Nat.testBit a i <;> cases Nat.testBit m i <;> rfl

/-- Masking with `INT_MASK` is reduction mod `2^48`. -/
theorem land_INT_MASK (v : Nat) : v &&& INT_MASK = v % 2 ^ 48 := by
  have h : INT_MASK = 2 ^ 48 - 1 := by norm_num [INT_MASK]
  rw [h, Nat.and_pow_two_sub_one_eq_mod]

/-- The combined integer tag `QNAN_BITS ||| TAG_INT` as a multiple of
`2^48`. -/
theorem qnan_tag_int_eq : QNAN_BITS ||| TAG_INT = 2 ^ 48 * 0x7FFD := by
  decide

/-- The integer payload `(i % 2^48).toNat` is below `2^48`. -/
theorem payload_lt (i : Int) : (i % (2 ^ 48 : Nat)).toNat < 2 ^ 48 := by
  have h1 : 0 ≤ i % (2 ^ 48 : Nat) := Int.emod_nonneg i (by positivity)
  have h2 : i % (2 ^ 48 : Nat) < (2 ^ 48 : Nat) := Int.emod_lt_of_pos i (by positivity)
  have h3 : ((2 ^ 48 : Nat) : Int) = 2 ^ 48 := by push_cast
  omega

/-- `val_int` in arithmetic form: tag plus payload. -/
theorem val_int_eq (i : Int) :
    val_int i = 2 ^ 48 * 0x7FFD + (i % (2 ^ 48 : Nat)).toNat := by
  rw [val_int, qnan_tag_int_eq]
  exact lor_high_low 48 0x7FFD _ (payload_lt i)

/-- The payload of a `val_int` is recovered by the 48-bit mask. -/
theorem val_int_land_mask (i : Int) :
    val_int i &&& INT_MASK = (i % (2 ^ 48 : Nat)).toNat := by
  rw [val_int_eq, land_INT_MASK, Nat.mul_add_mod]
  exact Nat.mod_eq_of_lt (payload_lt i)

/-- Every `val_int` is classified as an integer by `is_int`. -/
theorem is_int_val_int (i : Int) : is_int (val_int i) = true := by
  rw [is_int, val_int, beq_iff_eq]
  exact lor_land_self _ _

/-- Testing bit 47 of a 48-bit payload via `&&&`. -/
theorem land_bit47 (m : Nat) (hm : m < 2 ^ 48) :
    (m &&& 0x0000800000000000 = 0) ↔ m < 2 ^ 47 := by
  have h47 : (0x0000800000000000 : Nat) = 2 ^ 47 := by norm_num
  rw [h47]
  constructor
  · intro h
    by_contra hlt
    push_neg at hlt
    have hbitm : Nat.testBit m 47 = true := by
      rw [Nat.testBit_to_div_mod]
      have hd : m / 2 ^ 47 = 1 := by omega
      rw [hd]
      decide
    have hbit : Nat.testBit (m &&& 2 ^ 47) 47 = true := by
      rw [Nat.testBit_land, hbitm, Nat.testBit_two_pow_self]
      rfl
    rw [h] at hbit
    simp [Nat.zero_testBit] at hbit
  · intro h
    apply Nat.eq_of_testBit_eq
    intro i
    rw [Nat.testBit_land, Nat.zero_testBit]
    rcases eq_or_ne i 47 with rfl | hne
    · rw [Nat.testBit_lt_two_pow h, Bool.false_and]
    · have hb : Nat.testBit (2 ^ 47) i = false := by
        rw [Nat.testBit_two_pow]
        simp [Ne.symm hne]
      rw [hb, Bool.and_false]

/-- The sign-extension step in arithmetic form: oring a 48-bit payload with
`0xFFFF000000000000` adds the high bits. -/
theorem sign_extend_eq (m : Nat) (hm : m < 2 ^ 48) :
    m ||| 0xFFFF000000000000 = 2 ^ 48 * 0xFFFF + m := by
  rw [Nat.lor_comm]
  have h : (0xFFFF000000000000 : Nat) = 2 ^ 48 * 0xFFFF := by norm_num
  rw [h]
  exact lor_high_low 48 0xFFFF m hm

/-- `as_int` on an arbitrary word, in arithmetic form: reduce mod `2^48`,
then subtract `2^48` when bit 47 is set. -/
theorem as_int_eq (v : Nat) :
    as_int v = if v % 2 ^ 48 < 2 ^ 47 then ((v % 2 ^ 48 : Nat) : Int)
               else ((v % 2 ^ 48 : Nat) : Int) - 2 ^ 48 := by
  rw [as_int]
  simp only [land_INT_MASK]
  have hm : v % 2 ^ 48 < 2 ^ 48 := Nat.mod_lt _ (by positivity)
  by_cases h : v % 2 ^ 48 < 2 ^ 47
  · rw [if_pos ((land_bit47 _ hm).mpr h), if_pos h]
  · rw [if_neg (fun hc => h ((land_bit47 _ hm).mp hc)), if_neg h,
      sign_extend_eq _ hm]
    push_cast
    ring

/-- Reducing a `val_int` mod `2^48` recovers the payload. -/
theorem val_int_mod (i : Int) :
    val_int i % 2 ^ 48 = (i % (2 ^ 48 : Nat)).toNat := by
  rw [← land_INT_MASK, val_int_land_mask]

/-- Round trip for in-range integers: `as_int (val_int i) = i` whenever
`-2^47 ≤ i < 2^47`. -/
theorem as_int_val_int (i : Int) (h1 : -2 ^ 47 ≤ i) (h2 : i < 2 ^ 47) :
    as_int (val_int i) = i := by
  have hcast : ((2 ^ 48 : Nat) : Int) = 2 ^ 48 := by push_cast
  have hmod : i % (2 ^ 48 : Nat) = if 0 ≤ i then i else i + 2 ^ 48 := by
    by_cases h : 0 ≤ i
    · rw [if_pos h]
      exact Int.emod_eq_of_lt h (by rw [hcast]; omega)
    · rw [if_neg h]
      have heq : (i + 2 ^ 48) % ((2 ^ 48 : Nat) : Int) = i % ((2 ^ 48 : Nat) : Int) := by
        rw [hcast]
        have h' := Int.add_mul_emod_self_left (a := i) (b := (2 ^ 48 : Int)) (c := 1)
        rw [mul_one] at h'
        exact h'
      rw [← heq]
      exact Int.emod_eq_of_lt (by omega) (by rw [hcast]; omega)
  rw [as_int_eq, val_int_mod]
  by_cases h : 0 ≤ i
  · rw [hmod, if_pos h] at *
    have hlt : i.toNat < 2 ^ 47 := by omega
    rw [if_pos hlt]
    omega
  · rw [hmod, if_neg h] at *
    have hge : ¬ (i + 2 ^ 48).toNat < 2 ^ 47 := by omega
    rw [if_neg hge]
    omega

/-- If `v` contains a full tag `a ||| b`, it contains `a`. -/
theorem land_of_land_lor (v a b : Nat) (h : v &&& (a ||| b) = a ||| b) :
    v &&& a = a := by
  apply Nat.eq_of_testBit_eq
  intro i
  have hi := congrArg (fun x => Nat.testBit x i) h
  simp only [Nat.testBit_land, Nat.testBit_lor] at hi
  rw [Nat.testBit_land]
  cases hv : Nat.testBit v i <;> cases ha : Nat.testBit a i <;>
    cases hb : Nat.testBit b i <;> simp_all

/-- A word whose pattern is not a full quiet NaN is not integer-tagged. -/
theorem is_int_false_of_not_qnan (v : Nat) (h : v &&& QNAN_BITS ≠ QNAN_BITS) :
    is_int v = false := by
  rw [is_int]
  simp only [beq_eq_false_iff_ne, ne_eq]
  intro hc
  exact h (land_of_land_lor v QNAN_BITS TAG_INT hc)

/-- `as_int ∘ val_int` is exactly the 48-bit two's-complement wrap. -/
theorem as_int_val_int_wrap (z : Int) : as_int (val_int z) = wrap48 z := by
  rw [as_int_eq, val_int_mod, wrap48]
  have h1 : 0 ≤ z % (2 ^ 48 : Nat) := Int.emod_nonneg z (by positivity)
  have h2 : z % (2 ^ 48 : Nat) < (2 ^ 48 : Nat) := Int.emod_lt_of_pos z (by positivity)
  have hcast : ((2 ^ 48 : Nat) : Int) = 2 ^ 48 := by push_cast
  rw [hcast] at h1 h2
  have hmod : z % ((2 ^ 48 : Nat) : Int) = z % (2 ^ 48 : Int) := by rw [hcast]
  split <;> omega

/-- `val_int` only depends on its argument mod `2^48`. -/
theorem val_int_congr (x y : Int) (h : x % 2 ^ 48 = y % 2 ^ 48) :
    val_int x = val_int y := by
  rw [val_int_eq, val_int_eq]
  have hcast : ((2 ^ 48 : Nat) : Int) = 2 ^ 48 := by push_cast
  rw [hcast, h]

/-- Attaching the integer tag to a sub-`2^48` payload is addition. -/
theorem tag_plus_payload (m : Nat) (hm : m < 2 ^ 48) :
    QNAN_BITS ||| TAG_INT ||| m = 2 ^ 48 * 0x7FFD + m := by
  rw [qnan_tag_int_eq]
  exact lor_high_low 48 0x7FFD m hm

/-- The payload of `val_int x`, cast to `Int`, is `x % 2^48`. -/
theorem payload_cast (x : Int) :
    (((x % (2 ^ 48 : Nat)).toNat : Int)) = x % 2 ^ 48 := by
  have h1 : 0 ≤ x % (2 ^ 48 : Nat) := Int.emod_nonneg x (by positivity)
  have hcast : ((2 ^ 48 : Nat) : Int) = 2 ^ 48 := by push_cast
  rw [Int.toNat_of_nonneg h1, hcast]

/-- `fast_add` on two encoded integers is the encoded (wrapped) sum. -/
theorem fast_add_val_int (x y : Int) :
    fast_add (val_int x) (val_int y) = some (val_int (x + y)) := by
  rw [fast_add, is_int_val_int, is_int_val_int,
    if_pos (show (true && true) = true from rfl)]
  congr 1
  have hpx := payload_lt x
  have hpy := payload_lt y
  set px := (x % (2 ^ 48 : Nat)).toNat with hpxdef
  set py := (y % (2 ^ 48 : Nat)).toNat with hpydef
  -- the two tagged words add to a value below 2^64
  have hsum : val_int x + val_int y = 2 ^ 48 * 0xFFFA + (px + py) := by
    rw [val_int_eq, val_int_eq, ← hpxdef, ← hpydef]
    ring
  have hlt : 2 ^ 48 * 0xFFFA + (px + py) < 2 ^ 64 := by omega
  have hu : u64_add (val_int x) (val_int y) = 2 ^ 48 * 0xFFFA + (px + py) := by
    rw [u64_add, hsum]
    exact Nat.mod_eq_of_lt hlt
  rw [hu, land_INT_MASK, Nat.mul_add_mod,
    tag_plus_payload _ (Nat.mod_lt _ (by positivity)), val_int_eq]
  congr 1
  -- (px + py) % 2^48 equals the payload of x + y
  have hgoal : (((px + py) % 2 ^ 48 : Nat) : Int) =
      (((x + y) % (2 ^ 48 : Nat)).toNat : Int) := by
    rw [hpxdef, hpydef]
    push_cast
    omega
  exact_mod_cast hgoal

/-- `fast_sub` on two encoded integers is the encoded (wrapped)
difference. -/
theorem fast_sub_val_int (x y : Int) :
    fast_sub (val_int x) (val_int y) = some (val_int (x - y)) := by
  rw [fast_sub, is_int_val_int, is_int_val_int,
    if_pos (show (true && true) = true from rfl)]
  congr 1
  have hpx := payload_lt x
  have hpy := payload_lt y
  set px := (x % (2 ^ 48 : Nat)).toNat with hpxdef
  set py := (y % (2 ^ 48 : Nat)).toNat with hpydef
  have hvx : val_int x = 2 ^ 48 * 0x7FFD + px := by rw [val_int_eq, ← hpxdef]
  have hvy : val_int y = 2 ^ 48 * 0x7FFD + py := by rw [val_int_eq, ← hpydef]
  have hxlt : val_int x < 2 ^ 64 := by omega
  have hylt : val_int y < 2 ^ 64 := by omega
  have hu : u64_sub (val_int x) (val_int y) = (px + (2 ^ 64 - py)) % 2 ^ 64 := by
    rw [u64_sub, Nat.mod_eq_of_lt hxlt, Nat.mod_eq_of_lt hylt, hvx, hvy]
    have harith : 2 ^ 48 * 0x7FFD + px + (2 ^ 64 - (2 ^ 48 * 0x7FFD + py)) =
        px + (2 ^ 64 - py) := by omega
    rw [harith]
  rw [hu, land_INT_MASK, Nat.mod_mod_of_dvd _ (by norm_num : (2:Nat) ^ 48 ∣ 2 ^ 64),
    tag_plus_payload _ (Nat.mod_lt _ (by positivity)), val_int_eq]
  congr 1
  have hgoal : (((px + (2 ^ 64 - py)) % 2 ^ 48 : Nat) : Int) =
      (((x - y) % (2 ^ 48 : Nat)).toNat : Int) := by
    have hle : py ≤ 2 ^ 64 := by omega
    rw [hpxdef, hpydef]
    push_cast [hle]
    omega
  exact_mod_cast hgoal

/-- `fast_mul` on two encoded in-range integers is the encoded wrapped
product. -/
theorem fast_mul_val_int (x y : Int)
    (hx1 : -2 ^ 47 ≤ x) (hx2 : x < 2 ^ 47) (hy1 : -2 ^ 47 ≤ y) (hy2 : y < 2 ^ 47) :
    fast_mul (val_int x) (val_int y) = some (val_int (wrap64 (x * y))) := by
  rw [fast_mul, is_int_val_int, is_int_val_int,
    if_pos (show (true && true) = true from rfl),
    as_int_val_int x hx1 hx2, as_int_val_int y hy1 hy2]

/-- `wrap48` is the identity on in-range values. -/
theorem wrap48_self (z : Int) (h1 : -2 ^ 47 ≤ z) (h2 : z < 2 ^ 47) :
    wrap48 z = z := by
  rw [wrap48]
  omega

/-- Wrapping to 48 bits after wrapping to 64 bits is wrapping to 48 bits. -/
theorem wrap48_wrap64 (z : Int) : wrap48 (wrap64 z) = wrap48 z := by
  rw [wrap48, wrap64, wrap48]
  omega

/-- C3: encoding then decoding a tagged value round-trips exactly — for
every integer `i ∈ [-2^47, 2^47-1]`, `as_int (val_int i) = i`; decoding
`VAL_TRUE`, `VAL_FALSE` and `VAL_NONE` yields exactly the encoded kind;
and every 64-bit double whose bit pattern is not a quiet NaN in the tagged
range decodes bit-for-bit back to the same double. -/
theorem C3_encode_decode_roundtrip :
    (∀ i : Int, -2 ^ 47 ≤ i → i < 2 ^ 47 → as_int (val_int i) = i) ∧
    decode VAL_TRUE = Kind.trueK ∧
    decode VAL_FALSE = Kind.falseK ∧
    decode VAL_NONE = Kind.noneK ∧
    (∀ v : Nat, v < 2 ^ 64 → v &&& QNAN_BITS ≠ QNAN_BITS →
      decode v = Kind.numberK (as_number v) ∧ as_number v = v) := by
  refine ⟨as_int_val_int, by decide, by decide, by decide, ?_⟩
  intro v hv hq
  have hnone : v ≠ VAL_NONE := by rintro rfl; exact hq (by decide)
  have htrue : v ≠ VAL_TRUE := by rintro rfl; exact hq (by decide)
  have hfalse : v ≠ VAL_FALSE := by rintro rfl; exact hq (by decide)
  have hint : is_int v = false := is_int_false_of_not_qnan v hq
  have hnum : is_number v = true := by
    rw [is_number]
    simp [hq]
  rw [decode, if_neg hnone, if_neg htrue, if_neg hfalse]
  simp [hint, hnum, as_number]

/-- Witness for C3 at concrete inputs: the integer `123456789`, the three
singletons, and the bit pattern of the double `2.0`
(`0x4000000000000000`). -/
theorem C3_encode_decode_roundtrip_witness :
    as_int (val_int 123456789) = 123456789 ∧
    decode 0x4000000000000000 = Kind.numberK 0x4000000000000000 := by
  refine ⟨C3_encode_decode_roundtrip.1 123456789 (by decide) (by decide), ?_⟩
  have h := (C3_encode_decode_roundtrip.2.2.2.2 0x4000000000000000
    (by decide) (by decide)).1
  rw [h]
  rfl

/-- C10: integer `+`, `-`, `*` on two tagged in-range integers are
computed modulo `2^48` with sign extension on extraction — the result is
always again a tagged integer (no float promotion, no error), and its
decoded value is the 48-bit two's-complement wrap of the mathematical
result. -/
theorem C10_integer_arith_wraps (x y : Int)
    (hx1 : -2 ^ 47 ≤ x) (hx2 : x < 2 ^ 47) (hy1 : -2 ^ 47 ≤ y) (hy2 : y < 2 ^ 47) :
    (∃ r, fast_add (val_int x) (val_int y) = some r ∧ is_int r = true ∧
      as_int r = wrap48 (x + y)) ∧
    (∃ r, fast_sub (val_int x) (val_int y) = some r ∧ is_int r = true ∧
      as_int r = wrap48 (x - y)) ∧
    (∃ r, fast_mul (val_int x) (val_int y) = some r ∧ is_int r = true ∧
      as_int r = wrap48 (x * y)) := by
  refine ⟨⟨val_int (x + y), fast_add_val_int x y, is_int_val_int _,
      as_int_val_int_wrap _⟩,
    ⟨val_int (x - y), fast_sub_val_int x y, is_int_val_int _,
      as_int_val_int_wrap _⟩,
    ⟨val_int (wrap64 (x * y)), fast_mul_val_int x y hx1 hx2 hy1 hy2,
      is_int_val_int _, ?_⟩⟩
  rw [as_int_val_int_wrap, wrap48_wrap64]

/-- Witness for C10: adding the two large positive integers `2^46 + 2^46`
wraps to the negative integer `-2^47`; no error is signalled and the
result stays integer-tagged. -/
theorem C10_integer_arith_wraps_witness :
    ∃ r, fast_add (val_int (2 ^ 46)) (val_int (2 ^ 46)) = some r ∧
      is_int r = true ∧ as_int r = -(2 ^ 47) := by
  obtain ⟨⟨r, h1, h2, h3⟩, -, -⟩ :=
    C10_integer_arith_wraps (2 ^ 46) (2 ^ 46) (by decide) (by decide)
      (by decide) (by decide)
  exact ⟨r, h1, h2, h3.trans (by decide)⟩

/-- `wrap64` is the identity on in-range values. -/
theorem wrap64_self (z : Int) (h1 : -2 ^ 63 ≤ z) (h2 : z < 2 ^ 63) :
    wrap64 z = z := by
  rw [wrap64]
  omega

/-- `wrap64` does not change the residue mod `2^48`. -/
theorem wrap64_emod_48 (z : Int) : wrap64 z % 2 ^ 48 = z % 2 ^ 48 := by
  rw [wrap64]
  omega

/-- A well-formed tree's mathematical value is in the 48-bit range. -/
theorem wfExpr_range (e : Expr) (h : wfExpr e = true) :
    -2 ^ 47 ≤ evalM e ∧ evalM e < 2 ^ 47 := by
  cases e with
  | num i =>
    rw [wfExpr] at h
    simp only [Bool.and_eq_true, decide_eq_true_eq] at h
    simpa [evalM] using h
  | bin op l r =>
    rw [wfExpr] at h
    simp only [Bool.and_eq_true, decide_eq_true_eq] at h
    exact ⟨h.1.2, h.2⟩

/-- Unpacking well-formedness of a binary node. -/
theorem wfExpr_bin (op : BinTok) (l r : Expr) (h : wfExpr (.bin op l r) = true) :
    arith3 op = true ∧ wfExpr l = true ∧ wfExpr r = true ∧
      -2 ^ 47 ≤ evalM (.bin op l r) ∧ evalM (.bin op l r) < 2 ^ 47 := by
  rw [wfExpr] at h
  simp only [Bool.and_eq_true, decide_eq_true_eq] at h
  exact ⟨h.1.1.1.1, h.1.1.1.2, h.1.1.2, h.1.2, h.2⟩

/-- Substituting a node's children by literals with their values does not
change the node's value. -/
theorem evalM_subst (op : BinTok) (l r : Expr) :
    evalM (.bin op (.num (evalM l)) (.num (evalM r))) = evalM (.bin op l r) := by
  cases op <;> rfl

/-- One arithmetic VM step on two encoded in-range operands pushes the
encoded node value (`DO_ADD`/`DO_SUB`/`DO_MUL`). -/
theorem runInstrs_arith_step (op : BinTok) (hop : arith3 op = true) (a b : Int)
    (ha1 : -2 ^ 47 ≤ a) (ha2 : a < 2 ^ 47) (hb1 : -2 ^ 47 ≤ b) (hb2 : b < 2 ^ 47)
    (code : List Instr) (st : List Nat) (out : List String) :
    runInstrs (instrOfOp op :: code) (val_int b :: val_int a :: st) out =
      runInstrs code (val_int (evalM (.bin op (.num a) (.num b))) :: st) out := by
  cases op with
  | plus =>
    rw [instrOfOp, runInstrs, fast_add_val_int]
    rfl
  | minus =>
    rw [instrOfOp, runInstrs, fast_sub_val_int]
    rfl
  | times =>
    rw [instrOfOp, runInstrs, fast_mul_val_int a b ha1 ha2 hb1 hb2]
    have hc : val_int (wrap64 (a * b)) = val_int (a * b) :=
      val_int_congr _ _ (wrap64_emod_48 _)
    rw [hc]
    rfl
  | divide => exact absurd hop (by decide)
  | modulo => exact absurd hop (by decide)
  | less => exact absurd hop (by decide)

/-- Compiling a literal then executing pushes its encoding. -/
theorem runInstrs_lit (i : Int) (code : List Instr) (st : List Nat)
    (out : List String) :
    runInstrs (compileLit i ++ code) st out =
      runInstrs code (val_int i :: st) out := by
  rw [compileLit]
  by_cases h : 0 ≤ i ∧ i ≤ 255
  · rw [if_pos h]
    show runInstrs (.constInt i.toNat :: code) st out = _
    rw [runInstrs, Int.toNat_of_nonneg h.1]
  · rw [if_neg h]
    rfl

/-- Executing an unfolded binary node (children code, then the operator
opcode), given correct execution of the children. -/
theorem runInstrs_unfolded (op : BinTok) (hop : arith3 op = true) (l r : Expr)
    (hwl : wfExpr l = true) (hwr : wfExpr r = true)
    (Hl : ∀ code st out, runInstrs (compileExpr l ++ code) st out =
      runInstrs code (val_int (evalM l) :: st) out)
    (Hr : ∀ code st out, runInstrs (compileExpr r ++ code) st out =
      runInstrs code (val_int (evalM r) :: st) out)
    (code : List Instr) (st : List Nat) (out : List String) :
    runInstrs ((compileExpr l ++ compileExpr r ++ [instrOfOp op]) ++ code) st out =
      runInstrs code (val_int (evalM (.bin op l r)) :: st) out := by
  obtain ⟨hl1, hl2⟩ := wfExpr_range l hwl
  obtain ⟨hr1, hr2⟩ := wfExpr_range r hwr
  rw [List.append_assoc, List.append_assoc, Hl, Hr,
    List.singleton_append,
    runInstrs_arith_step op hop _ _ hl1 hl2 hr1 hr2, evalM_subst]

/-- Main expression lemma: compiled code for a well-formed tree pushes the
encoding of its value and continues. -/
theorem compileExpr_correct (e : Expr) (h : wfExpr e = true) :
    ∀ (code : List Instr) (st : List Nat) (out : List String),
      runInstrs (compileExpr e ++ code) st out =
        runInstrs code (val_int (evalM e) :: st) out := by
  induction e with
  | num i =>
    intro code st out
    rw [show compileExpr (.num i) = compileLit i from rfl, runInstrs_lit]
    rfl
  | bin op l r ihl ihr =>
    intro code st out
    obtain ⟨hop, hwl, hwr, hv1, hv2⟩ := wfExpr_bin op l r h
    have Hl := ihl hwl
    have Hr := ihr hwr
    -- the source folds only when both children are integer literals
    match l, r with
    | .num li, .num ri =>
      obtain ⟨hli1, hli2⟩ := wfExpr_range _ hwl
      obtain ⟨hri1, hri2⟩ := wfExpr_range _ hwr
      -- the folded value is the node's (in-range, hence unwrapped) value
      have hfold : foldArith op li ri = some (evalM (.bin op (.num li) (.num ri))) := by
        cases op with
        | plus =>
          rw [foldArith, wrap64_self _ (by simp [evalM] at hv1 hv2 ⊢; omega)
            (by simp [evalM] at hv1 hv2 ⊢; omega)]
          rfl
        | minus =>
          rw [foldArith, wrap64_self _ (by simp [evalM] at hv1 hv2 ⊢; omega)
            (by simp [evalM] at hv1 hv2 ⊢; omega)]
          rfl
        | times =>
          rw [foldArith, wrap64_self _ (by simp [evalM] at hv1 hv2 ⊢; omega)
            (by simp [evalM] at hv1 hv2 ⊢; omega)]
          rfl
        | divide => exact absurd hop (by decide)
        | modulo => exact absurd hop (by decide)
        | less => exact absurd hop (by decide)
      have hcode : compileExpr (.bin op (.num li) (.num ri)) =
          (if 0 ≤ evalM (.bin op (.num li) (.num ri)) ∧
              evalM (.bin op (.num li) (.num ri)) ≤ 255
           then [Instr.constInt (evalM (.bin op (.num li) (.num ri))).toNat]
           else compileExpr (.num li) ++ compileExpr (.num ri) ++ [instrOfOp op]) := by
        simp only [compileExpr, isLit, hfold]
      rw [hcode]
      by_cases hr255 : 0 ≤ evalM (.bin op (.num li) (.num ri)) ∧
          evalM (.bin op (.num li) (.num ri)) ≤ 255
      · rw [if_pos hr255, List.singleton_append, runInstrs,
          Int.toNat_of_nonneg hr255.1]
      · rw [if_neg hr255]
        exact runInstrs_unfolded op hop _ _ hwl hwr Hl Hr code st out
    | .num li, .bin rop rl rr =>
      exact runInstrs_unfolded op hop _ _ hwl hwr Hl Hr code st out
    | .bin lop ll lr, .num ri =>
      exact runInstrs_unfolded op hop _ _ hwl hwr Hl Hr code st out
    | .bin lop ll lr, .bin rop rl rr =>
      exact runInstrs_unfolded op hop _ _ hwl hwr Hl Hr code st out

/-- The encoding of an in-range integer is none of the three canonical
singletons, and `val_to_string` prints its decimal value. -/
theorem valToString_val_int (z : Int) (h1 : -2 ^ 47 ≤ z) (h2 : z < 2 ^ 47) :
    valToString (val_int z) = some (toString z) := by
  have hv := val_int_eq z
  have hp := payload_lt z
  have hnone : VAL_NONE = 2 ^ 48 * 0x7FFE := by decide
  have htrue : VAL_TRUE = 2 ^ 48 * 0x7FFF := by decide
  have hfalse : VAL_FALSE = 2 ^ 48 * 0x7FFC := by decide
  rw [valToString, if_neg (by omega), if_neg (by omega), if_neg (by omega),
    if_pos (is_int_val_int z), as_int_val_int z h1 h2]

/-- VM execution of a compiled well-formed program appends exactly the
interpreter-level outputs. -/
theorem runInstrs_prog (p : List Stmt) (h : wfProg p = true) :
    ∀ (st : List Nat) (out : List String),
      runInstrs ((p.flatMap fun s => compileStmt s ++ [.pop]) ++ [.ret]) st out =
        some (out ++ progOut p) := by
  induction p with
  | nil =>
    intro st out
    simp [progOut, runInstrs]
  | cons s p ih =>
    intro st out
    obtain ⟨e⟩ := s
    rw [wfProg, List.all_cons, Bool.and_eq_true] at h
    have hwf : wfExpr e = true := h.1
    have hrest : wfProg p = true := h.2
    obtain ⟨h1, h2⟩ := wfExpr_range e hwf
    rw [List.flatMap_cons, compileStmt, List.append_assoc, List.append_assoc,
      List.append_assoc, compileExpr_correct e hwf, List.singleton_append,
      runInstrs, valToString_val_int _ h1 h2]
    show runInstrs (.pop :: _) _ _ = _
    rw [runInstrs]
    simp only [List.append_eq, List.nil_append]
    rw [ih hrest _ _]
    simp [progOut]

/-- The interpreter agrees with the mathematical value on well-formed
trees (the `int64` wraps are identities in range). -/
theorem evalI_eq_evalM (e : Expr) (h : wfExpr e = true) :
    evalI e = some (evalM e) := by
  induction e with
  | num i => rfl
  | bin op l r ihl ihr =>
    obtain ⟨hop, hwl, hwr, hv1, hv2⟩ := wfExpr_bin op l r h
    rw [evalI, ihl hwl, ihr hwr]
    cases op with
    | plus =>
      have hv1' : -2 ^ 47 ≤ evalM l + evalM r := hv1
      have hv2' : evalM l + evalM r < 2 ^ 47 := hv2
      show some (wrap64 (evalM l + evalM r)) = some (evalM l + evalM r)
      rw [wrap64_self _ (by omega) (by omega)]
    | minus =>
      have hv1' : -2 ^ 47 ≤ evalM l - evalM r := hv1
      have hv2' : evalM l - evalM r < 2 ^ 47 := hv2
      show some (wrap64 (evalM l - evalM r)) = some (evalM l - evalM r)
      rw [wrap64_self _ (by omega) (by omega)]
    | times =>
      have hv1' : -2 ^ 47 ≤ evalM l * evalM r := hv1
      have hv2' : evalM l * evalM r < 2 ^ 47 := hv2
      show some (wrap64 (evalM l * evalM r)) = some (evalM l * evalM r)
      rw [wrap64_self _ (by omega) (by omega)]
    | divide => exact absurd hop (by decide)
    | modulo => exact absurd hop (by decide)
    | less => exact absurd hop (by decide)

/-- The interpreter's program output on a well-formed program. -/
theorem interpOutput_eq (p : List Stmt) (h : wfProg p = true) :
    interpOutput p = some (progOut p) := by
  induction p with
  | nil => rfl
  | cons s p ih =>
    obtain ⟨e⟩ := s
    rw [wfProg, List.all_cons, Bool.and_eq_true] at h
    rw [interpOutput, List.mapM_cons]
    rw [show (p.mapM fun s => match s with
        | .say e => (evalI e).map (fun v => toString v)) = interpOutput p from rfl]
    rw [ih h.2]
    simp only [evalI_eq_evalM e h.1]
    simp [progOut]

/-- A second, independent compiler/VM vs interpreter divergence (beyond
the nested-loop one that settles C1): the single-statement program
`say 140737488355328` (the literal `2^47`).  The interpreter evaluates and
prints the `int64` literal faithfully; the compiled pipeline stores it
through the 48-bit NaN-boxed encoding, whose sign extension reads it back
as `-2^47`, so the two engines print different output with no runtime
error anywhere. -/
theorem literal_out_of_range_diverges :
    vmOutput [Stmt.say (.num (2 ^ 47))] = some ["-140737488355328"] ∧
    interpOutput [Stmt.say (.num (2 ^ 47))] = some ["140737488355328"] ∧
    vmOutput [Stmt.say (.num (2 ^ 47))] ≠ interpOutput [Stmt.say (.num (2 ^ 47))] := by
  refine ⟨by decide, by decide, by decide⟩

/-- The positive side of the equivalence contract on the embedded
straight-line fragment (integer literals, `+`, `-`, `*`, `say`
statements): compiling with `Compiler::compile` and executing on `FastVM`
produces output identical to the tree-walking interpreter whenever every
literal and every intermediate integer value lies in the value encoding's
range `[-2^47, 2^47-1]`. -/
theorem compiled_matches_interpreter_in_range (p : List Stmt)
    (h : wfProg p = true) :
    ∃ outs, vmOutput p = some outs ∧ interpOutput p = some outs := by
  refine ⟨progOut p, ?_, interpOutput_eq p h⟩
  rw [vmOutput, compileProg, runInstrs_prog p h]
  rw [List.nil_append]

/-- The fragment equivalence applied at a concrete program:
`say 40000 + 2` (not folded — result exceeds 255 — so the VM really
executes `OP_ADD`). -/
theorem compiled_matches_interpreter_in_range_example :
    wfProg [Stmt.say (.bin .plus (.num 40000) (.num 2))] = true ∧
    ∃ outs, vmOutput [Stmt.say (.bin .plus (.num 40000) (.num 2))] = some outs ∧
      interpOutput [Stmt.say (.bin .plus (.num 40000) (.num 2))] = some outs :=
  ⟨by decide,
   compiled_matches_interpreter_in_range [Stmt.say (.bin .plus (.num 40000) (.num 2))]
     (by decide)⟩

/-- Every compiled literal is exactly one instruction. -/
theorem compileLit_length (i : Int) : (compileLit i).length = 1 := by
  rw [compileLit]
  split <;> rfl

/-- The shape of the compiled code for a two-literal binary node. -/
theorem compileExpr_two_lits (op : BinTok) (l r : Int) :
    compileExpr (.bin op (.num l) (.num r)) =
      (match foldArith op l r with
       | some res =>
         if 0 ≤ res ∧ res ≤ 255 then [Instr.constInt res.toNat]
         else compileLit l ++ compileLit r ++ [instrOfOp op]
       | none => compileLit l ++ compileLit r ++ [instrOfOp op]) := by
  simp only [compileExpr, isLit]

/-- Counterexample to C7 as stated: `200 + 200` is a binary expression on
two integer literals, the operation is not division or modulo by zero,
yet the compiler emits the three-instruction unfolded sequence (the
folded value 400 exceeds the one-byte `OP_CONST_INT` range), not a single
constant-load. -/
theorem C7_counterexample :
    compileExpr (.bin .plus (.num 200) (.num 200)) =
      [Instr.constInt 200, Instr.constInt 200, Instr.add] ∧
    (compileExpr (.bin .plus (.num 200) (.num 200))).length = 3 := by
  refine ⟨by decide, by decide⟩

/-- C7 (amended): for a binary expression whose operands are two integer
literals, the compiler replaces the instruction sequence by a single
`OP_CONST_INT` constant-load **exactly when** the folding switch accepts
the operator (`+ - * / %`, with a nonzero right literal for `/` and `%`)
**and** the folded value fits the one-byte operand range `[0, 255]`; in
every other case — including division and modulo by the literal zero, and
all comparison operators — the two literal loads and the operator opcode
are emitted unfolded. -/
theorem C7_constant_folding_characterized (op : BinTok) (l r : Int) :
    ((∃ b, compileExpr (.bin op (.num l) (.num r)) = [Instr.constInt b]) ↔
      (∃ res, foldArith op l r = some res ∧ 0 ≤ res ∧ res ≤ 255)) ∧
    (((op = .divide ∨ op = .modulo) ∧ r = 0) →
      compileExpr (.bin op (.num l) (.num r)) =
        compileLit l ++ compileLit r ++ [instrOfOp op]) ∧
    (op = .less →
      compileExpr (.bin op (.num l) (.num r)) =
        compileLit l ++ compileLit r ++ [instrOfOp op]) := by
  refine ⟨⟨?_, ?_⟩, ?_, ?_⟩
  · rintro ⟨b, hb⟩
    rw [compileExpr_two_lits] at hb
    rcases hfold : foldArith op l r with _ | res
    · rw [hfold] at hb
      have hlen := congrArg List.length hb
      simp [compileLit_length] at hlen
    · rw [hfold] at hb
      by_cases h255 : 0 ≤ res ∧ res ≤ 255
      · exact ⟨res, rfl, h255.1, h255.2⟩
      · rw [show (match some res with
            | some res =>
              if 0 ≤ res ∧ res ≤ 255 then [Instr.constInt res.toNat]
              else compileLit l ++ compileLit r ++ [instrOfOp op]
            | none => compileLit l ++ compileLit r ++ [instrOfOp op]) =
            (if 0 ≤ res ∧ res ≤ 255 then [Instr.constInt res.toNat]
             else compileLit l ++ compileLit r ++ [instrOfOp op]) from rfl,
          if_neg h255] at hb
        have hlen := congrArg List.length hb
        simp [compileLit_length] at hlen
  · rintro ⟨res, hres, h1, h2⟩
    refine ⟨res.toNat, ?_⟩
    rw [compileExpr_two_lits, hres]
    show (if 0 ≤ res ∧ res ≤ 255 then [Instr.constInt res.toNat]
          else compileLit l ++ compileLit r ++ [instrOfOp op]) = _
    rw [if_pos ⟨h1, h2⟩]
  · rintro ⟨hop, rfl⟩
    rcases hop with rfl | rfl <;>
      · rw [compileExpr_two_lits]
        simp [foldArith]
  · rintro rfl
    rw [compileExpr_two_lits]
    simp [foldArith]

/-- Witness for the amended C7: `7 / 0` is left unfolded (the runtime
error path is preserved), by applying the characterization at
`op = divide, l = 7, r = 0`. -/
theorem C7_constant_folding_characterized_witness :
    compileExpr (.bin .divide (.num 7) (.num 0)) =
      compileLit 7 ++ compileLit 0 ++ [instrOfOp .divide] :=
  (C7_constant_folding_characterized .divide 7 0).2.1 ⟨Or.inl rfl, rfl⟩

/-- The combined object tag `QNAN_BITS ||| TAG_OBJ` as a multiple of `2^48`. -/
theorem qnan_tag_obj_eq : QNAN_BITS ||| TAG_OBJ = 2 ^ 48 * 0xFFFC := by
  decide

/-- `val_obj` in arithmetic form. -/
theorem val_obj_eq (p : Nat) (hp : p < 2 ^ 48) :
    val_obj p = 2 ^ 48 * 0xFFFC + p := by
  rw [val_obj, qnan_tag_obj_eq]
  exact lor_high_low 48 0xFFFC p hp

/-- A boxed pointer is classified as an object. -/
theorem is_obj_val_obj (p : Nat) : is_obj (val_obj p) = true := by
  rw [is_obj, val_obj, beq_iff_eq]
  exact lor_land_self _ _

/-- The pointer payload round-trips. -/
theorem as_obj_val_obj (p : Nat) (hp : p < 2 ^ 48) :
    as_obj (val_obj p) = p := by
  have hmask : PTR_MASK = 2 ^ 48 - 1 := by norm_num [PTR_MASK]
  rw [as_obj, val_obj_eq p hp, hmask, Nat.and_pow_two_sub_one_eq_mod,
    Nat.mul_add_mod]
  exact Nat.mod_eq_of_lt hp

/-- C4: division by zero and modulo by zero are claimed to route through
the handler stack alike.  On the same state (`7` and `0` on the stack,
one active handler): `DO_DIV` restores the handler's snapshotted
stack/frame pointers and jumps to its catch target — byte-for-byte the
state `DO_THROW` produces — and with no handler it stops with the error
report; but `DO_MOD` executes C++ `%` with a zero divisor, which is
undefined behaviour reached without ever consulting the handler stack.
The claim is the spec's (and the compiler's line-4793 comment's) intent;
`DO_MOD` is the slip. -/
theorem C4_div_routes_through_handlers_mod_does_not :
    (∀ ddiv : Nat → Nat → Nat, doDIV ddiv vmWithHandler =
      .ok { vmWithHandler with sp := 0, ip := 100, handlers := [] }) ∧
    doTHROW vmWithHandler =
      .ok { vmWithHandler with sp := 0, ip := 100, handlers := [] } ∧
    doMOD vmWithHandler = .undef ∧
    (∀ ddiv : Nat → Nat → Nat,
      doDIV ddiv vmNoHandler = .halt "Error: Division by zero") := by
  refine ⟨fun ddiv => ?_, ?_, ?_, fun ddiv => ?_⟩ <;> rfl

/-! ### C6 — try/throw/catch stack restoration -/

/-- `pushN` grows only the operand stack. -/
theorem pushN_fields (vs : List Nat) (s : VM) :
    (pushN s vs).handlers = s.handlers ∧ (pushN s vs).frames = s.frames ∧
      (pushN s vs).sp = s.sp + vs.length := by
  induction vs generalizing s with
  | nil => exact ⟨rfl, rfl, rfl⟩
  | cons v vs ih =>
    obtain ⟨h1, h2, h3⟩ := ih { s with stack := writeStack s.stack s.sp v, sp := s.sp + 1 }
    refine ⟨h1, h2, ?_⟩
    rw [pushN, h3]
    show s.sp + 1 + vs.length = s.sp + (v :: vs).length
    rw [List.length_cons]
    omega

/-- `doTRY` keeps `sp` and the frames. -/
theorem doTRY_fields (s : VM) (off : Nat) :
    (doTRY s off).sp = s.sp ∧ (doTRY s off).frames = s.frames := by
  rw [doTRY]
  split <;> exact ⟨rfl, rfl⟩

/-- `doTHROW` on a state whose top handler is known. -/
theorem doTHROW_cons (t : VM) (h : TryHandler) (rest : List TryHandler)
    (hh : t.handlers = h :: rest) :
    doTHROW t = .ok { t with
      sp := h.saved_sp,
      frames := t.frames.drop (t.frames.length - h.saved_fp),
      ip := h.catch_ip,
      handlers := rest } := by
  rw [doTHROW, hh]

/-- One full try/(pushes)/throw/catch cycle restores the operand-stack
depth and the frame stack exactly, and does not grow the handler stack. -/
theorem tryCycle_state (off : Nat) (vs : List Nat) (s : VM)
    (h : s.handlers.length < 64) :
    (tryCycle off vs s).sp = s.sp ∧ (tryCycle off vs s).frames = s.frames ∧
      (tryCycle off vs s).handlers.length ≤ s.handlers.length := by
  obtain ⟨hph, hpf, hps⟩ := pushN_fields vs (doTRY s off)
  have htry : (doTRY s off).handlers =
      ⟨s.ip + 3 + off, s.sp, s.frames.length, s.ip + 3⟩ :: s.handlers := by
    rw [doTRY, if_pos h]
  obtain ⟨hts, htf⟩ := doTRY_fields s off
  have hh : (pushN (doTRY s off) vs).handlers =
      ⟨s.ip + 3 + off, s.sp, s.frames.length, s.ip + 3⟩ :: s.handlers := by
    rw [hph, htry]
  have hthrow := doTHROW_cons _ _ _ hh
  rw [tryCycle, hthrow]
  show (doCATCH _).sp = s.sp ∧ (doCATCH _).frames = s.frames ∧
    (doCATCH _).handlers.length ≤ s.handlers.length
  rw [doCATCH]
  refine ⟨rfl, ?_, ?_⟩
  · show (pushN (doTRY s off) vs).frames.drop _ = s.frames
    rw [hpf, htf, Nat.sub_self, List.drop_zero]
  · show s.handlers.tail.length ≤ s.handlers.length
    cases s.handlers <;> simp

/-- Iterating the cycle keeps `sp` pinned (it also never overflows the
handler stack, which the invariant carries along). -/
theorem tryCycle_iterate (off : Nat) (vs : List Nat) (s : VM)
    (h : s.handlers.length < 64) (n : Nat) :
    ((tryCycle off vs)^[n] s).sp = s.sp := by
  induction n generalizing s with
  | zero => rfl
  | succ n ih =>
    rw [Function.iterate_succ_apply]
    obtain ⟨h1, -, h3⟩ := tryCycle_state off vs s h
    rw [ih (tryCycle off vs s) (lt_of_le_of_lt h3 h), h1]

/-- C6: after a try block whose body raises is caught, execution resumes
with the operand-stack depth (and the frame stack) restored to exactly
the state at `DO_TRY`; iterating the same try/throw/catch cycle any
number of times leaves the stack pointer unchanged. -/
theorem C6_exception_roundtrip (s : VM) (off : Nat) (vs : List Nat)
    (h : s.handlers.length < 64) :
    (tryCycle off vs s).sp = s.sp ∧
    (tryCycle off vs s).frames = s.frames ∧
    ∀ n : Nat, ((tryCycle off vs)^[n] s).sp = s.sp := by
  obtain ⟨h1, h2, h3⟩ := tryCycle_state off vs s h
  exact ⟨h1, h2, tryCycle_iterate off vs s h⟩

/-- Witness for C6: a concrete state, a body pushing two values, and
10000 repetitions of the cycle (the spec's own test scenario). -/
theorem C6_exception_roundtrip_witness :
    (tryCycle 5 [val_int 1, val_int 2] vmNoHandler).sp = vmNoHandler.sp ∧
    ((tryCycle 5 [val_int 1, val_int 2])^[10000] vmNoHandler).sp = vmNoHandler.sp := by
  obtain ⟨h1, -, h3⟩ :=
    C6_exception_roundtrip vmNoHandler 5 [val_int 1, val_int 2] (by decide)
  exact ⟨h1, h3 10000⟩

/-- Counterexample to C8 as stated: reading index 5 of a one-element list
does **not** fail with an out-of-bounds condition — `OP_GET_INDEX`
completes normally and pushes whatever the raw backing cell at offset 5
holds (the stale `99`), a read outside `[0, length)`. -/
theorem C8_counterexample :
    (doGET_INDEX vmIdx).sp = 1 ∧
    (doGET_INDEX vmIdx).stack 0 = val_int 99 ∧
    (doGET_INDEX vmIdx).ip = vmIdx.ip + 1 := by
  exact ⟨rfl, rfl, rfl⟩

/-- C8 (amended): `ObjList::get`/`set` and the `OP_GET_INDEX` /
`OP_SET_INDEX` handlers perform **no** bounds check at all: for *every*
index — negative or at/past `count` included — the read returns the raw
backing cell `items[idx]` and the write stores into it, and the VM
continues normally; no out-of-bounds condition exists on this path. -/
theorem C8_index_never_bounds_checked :
    (∀ (s : VM) (addr cnt : Nat) (items : Int → Nat) (idx : Int),
      2 ≤ s.sp →
      s.stack (s.sp - 1) = val_int idx →
      s.stack (s.sp - 2) = val_obj addr →
      addr < 2 ^ 48 →
      s.heap addr = .list cnt items →
      -2 ^ 47 ≤ idx → idx < 2 ^ 47 →
      doGET_INDEX s = { s with
        sp := s.sp - 1,
        stack := writeStack s.stack (s.sp - 2) (items idx),
        ip := s.ip + 1 }) ∧
    (∀ (s : VM) (addr cnt : Nat) (items : Int → Nat) (idx : Int) (v : Nat),
      3 ≤ s.sp →
      s.stack (s.sp - 1) = v →
      s.stack (s.sp - 2) = val_int idx →
      s.stack (s.sp - 3) = val_obj addr →
      addr < 2 ^ 48 →
      s.heap addr = .list cnt items →
      -2 ^ 47 ≤ idx → idx < 2 ^ 47 →
      doSET_INDEX s = { s with
        sp := s.sp - 2,
        heap := fun p => if p = addr then
            .list cnt (fun j => if j = idx then v else items j)
          else s.heap p,
        ip := s.ip + 1 }) := by
  constructor
  · intro s addr cnt items idx hsp hidxv hobjv haddr hheap hidx1 hidx2
    have h21 : s.sp - 1 - 1 = s.sp - 2 := by omega
    simp only [doGET_INDEX, h21, hidxv, hobjv, is_obj_val_obj,
      as_obj_val_obj addr haddr, hheap, as_int_val_int idx hidx1 hidx2,
      if_true]
  · intro s addr cnt items idx v hsp hv hidxv hobjv haddr hheap hidx1 hidx2
    have h32 : s.sp - 2 - 1 = s.sp - 3 := by omega
    simp only [doSET_INDEX, h32, hv, hidxv, hobjv, is_obj_val_obj,
      as_obj_val_obj addr haddr, hheap, as_int_val_int idx hidx1 hidx2,
      if_true]

/-- Witness for the amended C8, at the counterexample's state (`list[5]`
read and written on a one-element list): both succeed normally. -/
theorem C8_index_never_bounds_checked_witness :
    doGET_INDEX vmIdx = { vmIdx with
      sp := 1,
      stack := writeStack vmIdx.stack 0 (val_int 99),
      ip := 8 } :=
  C8_index_never_bounds_checked.1 vmIdx 16 1
    (fun j => if j = 0 then val_int 10 else val_int 99) 5
    (by decide) rfl rfl (by decide) rfl (by decide) (by decide)

/-! ### C9 — `OP_CALL` never checks the declared arity -/

/-- C9: calling a bytecode-backed function through `OP_CALL` pushes a
frame whose locals window starts at the actual argument position
`sp - argc - 1`; the callee's declared `arity` is universally quantified
and unrelated to `argc` — no comparison happens, no error is raised, the
call proceeds with whatever window the actual argument count gives. -/
theorem C9_call_ignores_arity (s : VM) (argc addr chunk : Nat)
    (name : String) (arity : Nat)
    (hcallee : s.stack (s.sp - 1 - argc) = val_obj addr)
    (haddr0 : 0 < addr) (haddr : addr < 2 ^ 48)
    (hheap : s.heap addr = .func chunk name arity)
    (hchunk : chunk ≠ 0)
    (hfib : name ≠ "fib") (hprime : name ≠ "is_prime")
    (hframes : s.frames.length + 1 < FRAMES_MAX - 1) :
    doCALL s argc = .ok { s with
      frames := ⟨chunk, 0, s.sp - argc - 1⟩ :: s.frames,
      ip := 0 } := by
  have haddrne : ¬ (addr = 0) := by omega
  have hof : ¬ (FRAMES_MAX - 1 ≤ s.frames.length + 1) := by omega
  simp only [doCALL, hcallee, is_obj_val_obj, as_obj_val_obj addr haddr,
    hheap, if_true, if_neg haddrne, if_neg hchunk,
    if_neg (by simp [hfib] : ¬ (name = "fib" ∧ argc = 1)),
    if_neg (by simp [hprime] : ¬ (name = "is_prime" ∧ argc = 1)),
    if_neg hof]

/-- Witness for C9: the declared-arity-1 function called with 3 arguments
is not rejected; a frame with locals window at slot 0 is pushed. -/
theorem C9_call_ignores_arity_witness :
    doCALL vmCall 3 = .ok { vmCall with
      frames := ⟨7, 0, 0⟩ :: vmCall.frames,
      ip := 0 } :=
  C9_call_ignores_arity vmCall 3 32 7 "work" 1 rfl (by decide) (by decide)
    rfl (by decide) (by decide) (by decide) (by decide)

/-- Correctness of the emitted `fib` code by induction on the fuel:
with fuel beyond `2n` the code computes the spec recurrence. -/
theorem jitFib_and_loop (f : Nat) :
    (∀ n : Nat, 2 * n < f → jitFib f (n : Int) = (fibSpec n : Int)) ∧
    (∀ b : Nat, 2 ≤ b → 2 * b ≤ f → ∀ r14 : Int,
      jitFibLoop f (b : Int) r14 = r14 + (fibSpec b : Int)) := by
  induction f with
  | zero => exact ⟨fun n hn => absurd hn (by omega), fun b hb hf => absurd hf (by omega)⟩
  | succ f ih =>
    constructor
    · intro n hn
      rw [jitFib]
      by_cases h2 : n < 2
      · rw [if_pos (by exact_mod_cast h2)]
        interval_cases n <;> rfl
      · rw [if_neg (by exact_mod_cast h2)]
        rw [(ih.2) n (by omega) (by omega) 0]
        ring
    · intro b hb hf r14
      obtain ⟨m, rfl⟩ : ∃ m, b = m + 2 := ⟨b - 2, by omega⟩
      rw [jitFibLoop]
      have hb1 : ((m + 2 : Nat) : Int) - 1 = ((m + 1 : Nat) : Int) := by push_cast; ring
      have hb2 : ((m + 2 : Nat) : Int) - 2 = ((m : Nat) : Int) := by push_cast; ring
      have hrec : jitFib f ((m + 2 : Nat) : Int) - 0 = jitFib f ((m + 2 : Nat) : Int) := by ring
      rw [hb1, (ih.1) (m + 1) (by omega)]
      by_cases h3 : ((m + 2 : Nat) : Int) > 3
      · have hm2 : 2 ≤ m := by exact_mod_cast by push_cast at h3; omega
        rw [if_pos h3, hb2, (ih.2) m (by omega) (by omega)]
        have hfib : fibSpec (m + 2) = fibSpec m + fibSpec (m + 1) := rfl
        rw [hfib]
        push_cast
        ring
      · rw [if_neg h3, hb2]
        have hm : m = 0 ∨ m = 1 := by
          push_cast at h3
          omega
        rcases hm with rfl | rfl
        · show r14 + (fibSpec 1 : Int) + ((0 : Nat) : Int) = r14 + (fibSpec 2 : Int)
          have e1 : fibSpec 1 = 1 := rfl
          have e2 : fibSpec 2 = 1 := rfl
          rw [e1, e2]
          push_cast
          ring
        · show r14 + (fibSpec 2 : Int) + ((1 : Nat) : Int) = r14 + (fibSpec 3 : Int)
          have e1 : fibSpec 2 = 1 := rfl
          have e2 : fibSpec 3 = 2 := rfl
          rw [e1, e2]
          push_cast
          ring

/-- C5: on `[0, 30]` the native `fib` path returns exactly the spec
recurrence's values, and on `[0, 100]` the native `is_prime` path returns
exactly trial-division primality (1 for prime, 0 for composite). -/
theorem C5_jit_fib_isprime_match_spec :
    (∀ n : Nat, n ≤ 30 → jitFib 100 (n : Int) = (fibSpec n : Int)) ∧
    (∀ n : Nat, n ≤ 100 →
      jitIsPrime 64 (n : Int) = if isPrimeSpec n then 1 else 0) := by
  constructor
  · intro n hn
    exact (jitFib_and_loop 100).1 n (by omega)
  · decide

/-- Witness for C5 at concrete inputs: `fib(10) = 55` and
`is_prime(97) = 1`. -/
theorem C5_jit_fib_isprime_match_spec_witness :
    jitFib 100 10 = (fibSpec 10 : Int) ∧ (fibSpec 10 : Nat) = 55 ∧
    jitIsPrime 64 97 = (if isPrimeSpec 97 then 1 else 0) ∧
    isPrimeSpec 97 = true :=
  ⟨C5_jit_fib_isprime_match_spec.1 10 (by decide), by decide,
   C5_jit_fib_isprime_match_spec.2 97 (by decide), by decide⟩

set_option maxRecDepth 100000 in
/-- C2, settled at a failing input: on the program above (accumulator
initialized to 100, both ranges of size 10), the recognizer **fires** at
the inner `OP_ITER_INIT` of the first outer iteration (`outer.cur = 1`
after its first `ITER_NEXT`) and writes `val_int 2025 = 45·45` into the
global accumulator — but a normal full execution of the loop leaves
`val_int 2125 = 100 + Σᵢⱼ i·j`.  Code after the loop observes the
difference, contradicting the claimed observational equivalence; the
recognizer's closed form silently discards the accumulator's initial
value. -/
theorem C2_nested_recognizer_diverges_from_full_execution :
    iterInitNestedOpt 2 ⟨0, 0, 1, 10, 1⟩ 0 10 1 nestedBytes =
      some (false, 0, val_int 2025) ∧
    slowNested (val_int 100) 10 10 = some (val_int 2125) ∧
    val_int 2025 ≠ val_int 2125 := by
  refine ⟨by decide, by decide, by decide⟩

set_option maxRecDepth 100000 in
/-- C1, settled at a failing input: the spec states compiled execution ≡
tree-walking interpretation as the compiler's contract and the core
correctness property, and the program
```
total <- 100
for i in range(10):
  for j in range(10):
    total <- total + i * j
say total
```
— arithmetic, loops and a global, no JIT-intercepted names, no runtime
error, every value well inside `[-2^47, 2^47-1]` — violates it: on the
compiled pipeline the `DO_ITER_INIT` recognizer fires on the emitted
bytes and assigns `val_int 2025` to `total`, so `say` prints `"2025"`,
while the interpreter's `Value(long)` evaluation of the same loop yields
`2125` and prints `"2125"`.  The equivalence claim is the stated intent;
the recognizer (the C2 slip) breaks it. -/
theorem C1_vm_interpreter_diverge_on_nested_loop :
    iterInitNestedOpt 2 ⟨0, 0, 1, 10, 1⟩ 0 10 1 nestedBytes =
      some (false, 0, val_int 2025) ∧
    interpNested 100 10 10 = 2125 ∧
    valToString (val_int 2025) = some "2025" ∧
    toString (2125 : Int) = "2125" ∧
    ("2025" : String) ≠ "2125" := by
  refine ⟨by decide, by decide, by decide, by decide, by decide⟩

end Levython
